import Mathlib

/-!
Shallow embedding of the rumikan kernel's xHCI USB driver core
(kernel-lib/src/usb and kernel-lib/src/pci), together with proofs of the
spec's claims about it.

Machine integers are modelled as Nat with explicit reduction modulo 2^w at
the points where the Rust code truncates or wraps.  The bit_field crate's
accessors get_bits(lo..hi) / set_bits(lo..hi, v) / get_bit / set_bit are
modelled arithmetically by getBits / setBits / setBitB below.
-/

namespace Rumikan

/-- Model of bit_field get_bits(lo..hi): the value of bits lo..hi (hi exclusive). -/
def getBits (x lo hi : Nat) : Nat := x / 2 ^ lo % 2 ^ (hi - lo)

/-- Model of bit_field set_bits(lo..hi, v): replace bits lo..hi by v (truncated to the field width). -/
def setBits (x lo hi v : Nat) : Nat :=
  x % 2 ^ lo + v % 2 ^ (hi - lo) * 2 ^ lo + x / 2 ^ hi * 2 ^ hi

/-- Model of bit_field set_bit(i, b). -/
def setBitB (x i : Nat) (b : Bool) : Nat := setBits x i (i + 1) (if b then 1 else 0)

/-! ## usb/mem.rs — the bump allocator -/

/-- usb/mem.rs: MEMORY_POOL_BYTES = 4096 * 32. -/
def MEMORY_POOL_BYTES : Nat := 4096 * 32

/-- usb/mem.rs ceil: (value + alignment - 1) & !(alignment - 1) on usize (64-bit);
!(alignment - 1) = 2^64 - alignment for alignment ≥ 1. -/
def ceil (value alignment : Nat) : Nat :=
  (value + alignment - 1) % 2 ^ 64 &&& (2 ^ 64 - alignment)

/-- The offset after the optional alignment rounding step of allocate. -/
def alignedOffset (offset : Nat) (alignment : Option Nat) : Nat :=
  match alignment with
  | some a => ceil offset a
  | none => offset

/-- The offset after the optional boundary-jump step of allocate. -/
def boundedOffset (offset bytes : Nat) (boundary : Option Nat) : Nat :=
  match boundary with
  | some b =>
    let next_boundary := ceil offset b
    if offset + bytes > next_boundary then next_boundary else offset
  | none => offset

/-- usb/mem.rs allocate, as a function of the global OFFSET.  Returns the
offset of the allocated region (the returned pointer is pool base + that
offset) together with the new value of OFFSET; OFFSET is assigned only in
the success branch of the source. -/
def allocate (offset bytes : Nat) (alignment boundary : Option Nat) :
    Except Unit (Nat × Nat) :=
  let o1 := alignedOffset offset alignment
  let o2 := boundedOffset o1 bytes boundary
  if o2 + bytes ≤ MEMORY_POOL_BYTES then Except.ok (o2, o2 + bytes)
  else Except.error ()

/-- The global-state view of allocate: result paired with the value of the
static OFFSET after the call (unchanged when the error branch is taken,
since only the Ok branch of the source assigns OFFSET). -/
def allocateRun (offset bytes : Nat) (alignment boundary : Option Nat) :
    Except Unit Nat × Nat :=
  match allocate offset bytes alignment boundary with
  | Except.ok (p, newOffset) => (Except.ok p, newOffset)
  | Except.error e => (Except.error e, offset)

/-! ## usb/port.rs — port speed and interval conversion -/

/-- usb/port.rs PortSpeed (FULL_SPEED=1 .. SUPER_SPEED_PLUS=5). -/
inductive PortSpeed where
  | FullSpeed
  | LowSpeed
  | HighSpeed
  | SuperSpeed
  | SuperSpeedPlus
deriving DecidableEq, Repr

/-- usb/endpoint.rs EndpointType. -/
inductive EndpointType where
  | Control
  | Isochronous
  | Bulk
  | Interrupt
deriving DecidableEq, Repr

/-- One step of u32::reverse_bits: consume the low bit of m, append it to acc. -/
def revAux : Nat → Nat → Nat → Nat
  | 0, _, acc => acc
  | k + 1, m, acc => revAux k (m / 2) (2 * acc + m % 2)

/-- Model of u32::reverse_bits (bit i of the input becomes bit 31 - i). -/
def reverseBits32 (n : Nat) : Nat := revAux 32 n 0

/-- Mathematical bit reversal of the low k bits of m (bit i goes to
position k - 1 - i): the specification revAux is proved against. -/
def revSpec : Nat → Nat → Nat
  | 0, _ => 0
  | k + 1, m => m % 2 * 2 ^ k + revSpec k (m / 2)

/-- usb/port.rs msb1 loop: while n > 0 { if n & 1 == 1 { return Some(i) };
n >>= 1; i -= 1 }. -/
def msb1Aux (n i : Nat) : Option Nat :=
  if h : n = 0 then none
  else if n % 2 = 1 then some i
  else msb1Aux (n / 2) (i - 1)
termination_by n
decreasing_by exact Nat.div_lt_self (Nat.pos_of_ne_zero h) one_lt_two

/-- usb/port.rs msb1: reverse the 32-bit value, then scan from the LSB with i
starting at 0x1f. -/
def msb1 (n : Nat) : Option Nat := msb1Aux (reverseBits32 n) 0x1f

/-- usb/port.rs PortSpeed::convert_interval on u32 values (wrapping
arithmetic modulo 2^32, as in release-mode Rust). -/
def convert_interval (s : PortSpeed) (endpoint_type : EndpointType) (interval : Nat) : Nat :=
  match s with
  | PortSpeed.FullSpeed | PortSpeed.LowSpeed =>
    match endpoint_type with
    | EndpointType.Isochronous => interval * 2 % 2 ^ 32
    | _ =>
      ((match msb1 interval with
        | some i => (i : Int)
        | none => -1) + 3).toNat % 2 ^ 32
  | _ => (interval + (2 ^ 32 - 1)) % 2 ^ 32

/-! ## usb/ring.rs — TRB encodings (the revision used by usb/mod.rs and usb/devmgr.rs) -/

/-- usb/ring.rs Trb::cycle_bit: self.0.get_bit(65). -/
def Trb.cycle_bit (t : Nat) : Bool := t.testBit 65

/-- The 6-bit TRB type field at bits 106..112. -/
def trbType (t : Nat) : Nat := getBits t 106 112

/-- usb/ring.rs SetupStageTrb transfer-type constants (this revision). -/
def TRANSFER_TYPE_NO_DATA_STAGE : Nat := 0

/-- usb/ring.rs: TRANSFER_TYPE_OUT_DATA_STAGE = 3 in this revision. -/
def TRANSFER_TYPE_OUT_DATA_STAGE : Nat := 3

/-- usb/ring.rs: TRANSFER_TYPE_IN_DATA_STAGE = 3. -/
def TRANSFER_TYPE_IN_DATA_STAGE : Nat := 3

/-- usb/trb/mod.rs SetupStageTrb constants (the other source revision). -/
def TrbMod.TRANSFER_TYPE_OUT_DATA_STAGE : Nat := 2

/-- usb/trb/mod.rs: TRANSFER_TYPE_IN_DATA_STAGE = 3. -/
def TrbMod.TRANSFER_TYPE_IN_DATA_STAGE : Nat := 3

/-- usb/ring.rs SetupData getters (SetupData is a u64 bit struct). -/
def SetupData.request_type (sd : Nat) : Nat := getBits sd 0 8

/-- SetupData request field. -/
def SetupData.request (sd : Nat) : Nat := getBits sd 8 16

/-- SetupData value field. -/
def SetupData.value (sd : Nat) : Nat := getBits sd 16 32

/-- SetupData index field. -/
def SetupData.index (sd : Nat) : Nat := getBits sd 32 48

/-- SetupData length field. -/
def SetupData.length (sd : Nat) : Nat := getBits sd 48 64

/-- usb/ring.rs SetupStageTrb::from(setup_data, transfer_type). -/
def SetupStageTrb.from (sd transfer_type : Nat) : Nat :=
  let bits := setBits 0 106 112 2
  let bits := setBits bits 64 81 8
  let bits := setBitB bits 102 true
  let bits := setBits bits 112 114 transfer_type
  let bits := setBits bits 0 8 (SetupData.request_type sd)
  let bits := setBits bits 8 16 (SetupData.request sd)
  let bits := setBits bits 16 32 (SetupData.value sd)
  let bits := setBits bits 32 48 (SetupData.index sd)
  let bits := setBits bits 48 64 (SetupData.length sd)
  bits

/-- usb/ring.rs DataStageTrb::from(buf, len, is_in). -/
def DataStageTrb.from (buf len : Nat) (is_in : Bool) : Nat :=
  let bits := setBits 0 106 112 3
  let bits := setBits bits 0 64 buf
  let bits := setBits bits 64 81 len
  let bits := setBits bits 81 86 0
  let bits := setBitB bits 112 is_in
  bits

/-- DataStageTrb::set_interrupt_on_completion (bit 101). -/
def DataStageTrb.set_interrupt_on_completion (t : Nat) (b : Bool) : Nat := setBitB t 101 b

/-- usb/ring.rs StatusStageTrb::new(). -/
def StatusStageTrb.new : Nat := setBits 0 106 112 4

/-- StatusStageTrb::set_direction (bit 112). -/
def StatusStageTrb.set_direction (t : Nat) (b : Bool) : Nat := setBitB t 112 b

/-- StatusStageTrb::set_interrupt_on_completion (bit 101). -/
def StatusStageTrb.set_interrupt_on_completion (t : Nat) (b : Bool) : Nat := setBitB t 101 b

/-- usb/ring.rs LinkTrb::new(ring_segment_pointer): type 6, bits 4..64 hold
pointer >> 4. -/
def LinkTrb.new (ring_segment_pointer : Nat) : Nat :=
  let bits := setBits 0 106 112 6
  let bits := setBits bits 4 64 (ring_segment_pointer / 2 ^ 4)
  bits

/-- LinkTrb::set_toggle_cycle (bit 97). -/
def LinkTrb.set_toggle_cycle (t : Nat) (b : Bool) : Nat := setBitB t 97 b

/-- usb/ring.rs NormalTrb::new() plus the builder setters used by interrupt_in. -/
def NormalTrb.new : Nat := setBits 0 106 112 1

/-! ## usb/ring.rs — producer Ring -/

/-- Producer ring state: base address of the TRB buffer, the buffer contents
indexed by slot, length in slots, the producer cycle bit and write index. -/
structure Ring where
  base : Nat
  slots : Nat → Nat
  len : Nat
  cycle_bit : Bool
  write_index : Nat

/-- The TRB value written by Ring::copy_to_last: the 32-bit word at bits
96..128 is masked with 0xfffffffe and ORed with the cycle bit. -/
def copyCycle (data : Nat) (c : Bool) : Nat :=
  let msb32 := getBits data 96 128
  let msb32 := msb32 &&& 0xfffffffe ||| (if c then 1 else 0)
  setBits data 96 128 msb32

/-- Ring::copy_to_last: write the TRB (with the cycle bit patched in) at the
current write index. -/
def Ring.copy_to_last (r : Ring) (data : Nat) : Ring :=
  { r with slots := Function.update r.slots r.write_index (copyCycle data r.cycle_bit) }

/-- usb/ring.rs Ring::push.  Returns the new ring state and the address of
the slot the TRB was written to. -/
def Ring.push (r : Ring) (data : Nat) : Ring × Nat :=
  let ptr := r.base + 16 * r.write_index
  let r := r.copy_to_last data
  let r := { r with write_index := r.write_index + 1 }
  if r.write_index = r.len - 1 then
    let link := LinkTrb.set_toggle_cycle (LinkTrb.new r.base) true
    let r := r.copy_to_last link
    ({ r with write_index := 0, cycle_bit := !r.cycle_bit }, ptr)
  else (r, ptr)

/-- usb/ring.rs Ring::initialize(len) (buffer base supplied by the allocator). -/
def Ring.initialize (base len : Nat) : Ring :=
  { base := base, slots := fun _ => 0, len := len, cycle_bit := true, write_index := 0 }

/-- A ring paired with the log of doorbell-register writes, to express which
operations ring a doorbell.  Ring::push has no access to any doorbell
register in the source, so only the devmgr.rs control/interrupt functions
below ever append to the log. -/
structure RingM where
  ring : Ring
  doorbellWrites : List (Nat × Nat)

/-- Push through the doorbell-logging wrapper (Ring::push itself). -/
def RingM.push (m : RingM) (data : Nat) : RingM × Nat :=
  let p := m.ring.push data
  ({ m with ring := p.1 }, p.2)

/-- devmgr.rs ring_doorbell: dbreg.ring(endpoint_id.address(), 0). -/
def RingM.ring_doorbell (m : RingM) (epAddr : Nat) : RingM :=
  { m with doorbellWrites := m.doorbellWrites ++ [(epAddr, 0)] }

/-- devmgr.rs UsbDevice::control_out, restricted to its transfer-ring and
doorbell effects (the setup-stage bookkeeping map is omitted).  buf is the
optional (pointer, length) data buffer. -/
def control_out (m : RingM) (epAddr sd : Nat) (buf : Option (Nat × Nat)) : RingM :=
  match buf with
  | some (b, len) =>
    let p := m.push (SetupStageTrb.from sd TRANSFER_TYPE_OUT_DATA_STAGE)
    let q := p.1.push (DataStageTrb.set_interrupt_on_completion (DataStageTrb.from b len true) true)
    let w := q.1.push StatusStageTrb.new
    w.1.ring_doorbell epAddr
  | none =>
    let p := m.push (SetupStageTrb.from sd TRANSFER_TYPE_NO_DATA_STAGE)
    let q := p.1.push
      (StatusStageTrb.set_interrupt_on_completion StatusStageTrb.new true)
    q.1.ring_doorbell epAddr

/-- devmgr.rs UsbDevice::control_in, same restriction as control_out. -/
def control_in (m : RingM) (epAddr sd : Nat) (buf : Option (Nat × Nat)) : RingM :=
  match buf with
  | some (b, len) =>
    let p := m.push (SetupStageTrb.from sd TRANSFER_TYPE_IN_DATA_STAGE)
    let q := p.1.push (DataStageTrb.set_interrupt_on_completion (DataStageTrb.from b len true) true)
    let w := q.1.push StatusStageTrb.new
    w.1.ring_doorbell epAddr
  | none =>
    let p := m.push (SetupStageTrb.from sd TRANSFER_TYPE_NO_DATA_STAGE)
    let q := p.1.push
      (StatusStageTrb.set_interrupt_on_completion
        (StatusStageTrb.set_direction StatusStageTrb.new true) true)
    q.1.ring_doorbell epAddr

/-! ## usb/ring.rs — consumer EventRing

The dequeue position lives in the hardware ERDP register; the consumer
struct holds the buffer and segment-table pointers plus the tracked cycle
bit.  mem models RAM: the 128-bit value stored at a given byte address
(event TRBs at their slot addresses, the 16-byte segment-table entry at the
table's address). -/

/-- Consumer event-ring state: the struct fields of usb/ring.rs EventRing
(buffer and segment_table are raw pointers, null = 0 after new()), the ERDP
register value, and RAM. -/
structure EventRing where
  mem : Nat → Nat
  buffer : Nat
  segment_table : Nat
  erdp : Nat
  len : Nat
  cycle_bit : Bool

/-- usb/ring.rs EventRing::new(): null buffer and segment-table pointers. -/
def EventRing.new (mem : Nat → Nat) : EventRing :=
  { mem := mem, buffer := 0, segment_table := 0, erdp := 0, len := 0, cycle_bit := false }

/-- The EventRingSegmentTableEntry value built by set_ring_segment_size(len
as u16) then set_ring_segment_base_address(base): size at bits 64..80, base
at bits 0..64. -/
def segTableEntry (base len : Nat) : Nat := setBits (setBits 0 64 80 len) 0 64 base

/-- usb/ring.rs EventRing::initialize(len, interrupter): sets cycle_bit and
len, allocates the buffer (at bufAddr) and the one-entry segment table (at
tblAddr), writes the entry through the local segment_table_ptr, and writes
ERSTSZ/ERDP/ERSTBA.  It never assigns self.buffer or self.segment_table, so
both keep their previous (null) values. -/
def EventRing.initialize (e : EventRing) (bufAddr tblAddr len : Nat) : EventRing :=
  { e with
    cycle_bit := true,
    len := len,
    mem := Function.update e.mem tblAddr (segTableEntry bufAddr len),
    erdp := bufAddr }

/-- usb/trb/ring.rs EventRing::initialize — the repository's other revision:
identical except that it does assign self.buffer and self.segment_table to
the allocated pointers. -/
def TrbMod.initializeEventRing (e : EventRing) (bufAddr tblAddr len : Nat) : EventRing :=
  { e with
    cycle_bit := true,
    len := len,
    buffer := bufAddr,
    segment_table := tblAddr,
    mem := Function.update e.mem tblAddr (segTableEntry bufAddr len),
    erdp := bufAddr }

/-- usb/ring.rs EventRing::peek_front: read the TRB at ERDP; return it only
if its Trb::cycle_bit (bit 65 in this revision) equals the tracked cycle bit. -/
def EventRing.peek_front (e : EventRing) : Option Nat :=
  let trb := e.mem e.erdp
  if Trb.cycle_bit trb = e.cycle_bit then some trb else none

/-- usb/ring.rs EventRing::pop (same code in usb/trb/ring.rs): advance ERDP
by one 16-byte TRB; the segment bounds are read through the struct's
segment_table pointer ((*self.segment_table) in the source); on reaching the
segment end, wrap to the segment base and flip the tracked cycle bit. -/
def EventRing.pop (e : EventRing) : EventRing :=
  let ptr := e.erdp + 16
  let segment_begin := getBits (e.mem e.segment_table) 0 64
  let segment_end := segment_begin + 16 * getBits (e.mem e.segment_table) 64 80
  if ptr = segment_end then
    { e with erdp := segment_begin, cycle_bit := !e.cycle_bit }
  else
    { e with erdp := ptr }

/-! ## usb/mod.rs — the Xhc port-configuration state machine

The controller state relevant to the port bring-up claims: the per-port
phase array and addressing_port.  startedSlots is a ghost log of the slot
ids on which device.start_initialize() has been called.  Hardware reads
(port connected / enabled / reset-changed bits, the slot-to-root-port
mapping held by the device manager, allocation success) enter as explicit
arguments of each handler. -/

/-- usb/mod.rs ConfigPhase. -/
inductive ConfigPhase where
  | NotConnected
  | WaitingAddressed
  | ResettingPort
  | EnablingSlot
  | AddressingDevice
  | InitializingDevice
  | ConfiguringEndpoints
  | Configured
deriving DecidableEq, Repr

/-- The controller state tracked by the port bring-up claims. -/
structure XhcState where
  phases : Fin 256 → ConfigPhase
  addressing_port : Option (Fin 256)
  startedSlots : List Nat

/-- Xhc::new: all ports NotConnected, addressing_port = None. -/
def initState : XhcState :=
  { phases := fun _ => ConfigPhase.NotConnected, addressing_port := none, startedSlots := [] }

/-- usb/mod.rs Xhc::reset_port.  connected is the port's PORTSC connect
status.  The error branch (InvalidPhase) leaves the state unchanged. -/
def resetPort (s : XhcState) (p : Fin 256) (connected : Bool) : XhcState :=
  if connected then
    match s.addressing_port with
    | some _ => { s with phases := Function.update s.phases p ConfigPhase.WaitingAddressed }
    | none =>
      match s.phases p with
      | ConfigPhase.NotConnected | ConfigPhase.WaitingAddressed =>
        { s with phases := Function.update s.phases p ConfigPhase.ResettingPort,
                 addressing_port := some p }
      | _ => s
  else s

/-- usb/mod.rs Xhc::configure_port: reset_port only when the port is
NotConnected. -/
def configurePort (s : XhcState) (p : Fin 256) (connected : Bool) : XhcState :=
  if s.phases p = ConfigPhase.NotConnected then resetPort s p connected else s

/-- usb/mod.rs Xhc::enable_slot (command push and doorbell-0 ring omitted;
the PORTSC enabled / reset-changed bits are the two Bool inputs). -/
def enableSlot (s : XhcState) (p : Fin 256) (enabled reset_changed : Bool) : XhcState :=
  if enabled && reset_changed then
    { s with phases := Function.update s.phases p ConfigPhase.EnablingSlot }
  else s

/-- usb/mod.rs Xhc::on_port_status_change_event. -/
def onPortStatusChangeEvent (s : XhcState) (p : Fin 256)
    (connected enabled reset_changed : Bool) : XhcState :=
  match s.phases p with
  | ConfigPhase.NotConnected => resetPort s p connected
  | ConfigPhase.ResettingPort => enableSlot s p enabled reset_changed
  | _ => s

/-- usb/mod.rs Xhc::address_device(port_id, slot_id): allocate the device
(allocOk = false models an allocation failure, which returns before the
phase is written), then phase := AddressingDevice and push the
AddressDeviceCommand (omitted). -/
def addressDevice (s : XhcState) (p : Fin 256) (allocOk : Bool) : XhcState :=
  if allocOk then
    { s with phases := Function.update s.phases p ConfigPhase.AddressingDevice }
  else s

/-- The EnableSlotCommand arm of Xhc::on_command_completion_event. -/
def onCompletionEnableSlot (s : XhcState) (allocOk : Bool) : XhcState :=
  match s.addressing_port with
  | some ap =>
    if s.phases ap = ConfigPhase.EnablingSlot then addressDevice s ap allocOk else s
  | none => s

/-- The scan in the AddressDeviceCommand arm: reset_port on the first port
whose phase is WaitingAddressed (if any). -/
def scanWaitingAddressed (s : XhcState) (connected : Bool) : XhcState :=
  match (List.finRange 256).find? (fun i => s.phases i = ConfigPhase.WaitingAddressed) with
  | some i => resetPort s i connected
  | none => s

/-- The AddressDeviceCommand arm of Xhc::on_command_completion_event.
devPort is the root-hub port number recorded in the slot context of the
device found for the event's slot id; slot is that slot id.  Note the
source never assigns addressing_port = None here. -/
def onCompletionAddressDevice (s : XhcState) (slot : Nat) (devPort : Fin 256)
    (connected : Bool) : XhcState :=
  if s.addressing_port = some devPort ∧ s.phases devPort = ConfigPhase.AddressingDevice then
    let s := scanWaitingAddressed s connected
    { s with phases := Function.update s.phases devPort ConfigPhase.InitializingDevice,
             startedSlots := s.startedSlots ++ [slot] }
  else s

/-- The ConfigureEndpointCommand arm of Xhc::on_command_completion_event. -/
def onCompletionConfigureEndpoint (s : XhcState) (devPort : Fin 256) : XhcState :=
  if s.phases devPort = ConfigPhase.ConfiguringEndpoints then
    { s with phases := Function.update s.phases devPort ConfigPhase.Configured }
  else s

/-- usb/mod.rs Xhc::on_transfer_event: after the device handler, if the
device reports initialized and the port phase is InitializingDevice, run
configure_endpoints (devOk = false models a failure inside the device's
configure_endpoints, before the phase is written). -/
def onTransferEvent (s : XhcState) (devPort : Fin 256) (devInitialized devOk : Bool) : XhcState :=
  if devInitialized ∧ s.phases devPort = ConfigPhase.InitializingDevice then
    (if devOk then
      { s with phases := Function.update s.phases devPort ConfigPhase.ConfiguringEndpoints }
    else s)
  else s

/-- One controller step: a configure_port call or one event dispatched by
process_event, with the hardware-supplied values as inputs. -/
inductive XhcStep : XhcState → XhcState → Prop where
  | configurePort (s : XhcState) (p : Fin 256) (connected : Bool) :
      XhcStep s (configurePort s p connected)
  | portStatusChange (s : XhcState) (p : Fin 256) (connected enabled reset_changed : Bool) :
      XhcStep s (onPortStatusChangeEvent s p connected enabled reset_changed)
  | completionEnableSlot (s : XhcState) (allocOk : Bool) :
      XhcStep s (onCompletionEnableSlot s allocOk)
  | completionAddressDevice (s : XhcState) (slot : Nat) (devPort : Fin 256) (connected : Bool) :
      XhcStep s (onCompletionAddressDevice s slot devPort connected)
  | completionConfigureEndpoint (s : XhcState) (devPort : Fin 256) :
      XhcStep s (onCompletionConfigureEndpoint s devPort)
  | transferEvent (s : XhcState) (devPort : Fin 256) (devInitialized devOk : Bool) :
      XhcStep s (onTransferEvent s devPort devInitialized devOk)

/-- States reachable from the freshly constructed controller. -/
def XhcReachable (s : XhcState) : Prop := Relation.ReflTransGen XhcStep initState s

/-- The three phases the single-addressing invariant is about. -/
def ActivePhase (c : ConfigPhase) : Prop :=
  c = ConfigPhase.ResettingPort ∨ c = ConfigPhase.EnablingSlot ∨
    c = ConfigPhase.AddressingDevice

instance (c : ConfigPhase) : Decidable (ActivePhase c) := by
  unfold ActivePhase; infer_instance

/-! ## pci.rs — ConfigAddress -/

/-- pci.rs ConfigAddress::new(bus, device, function, reg_addr).value():
1 << 31 | bus << 16 | device << 11 | function << 8 | (reg_addr & 0xfc). -/
def ConfigAddress.value (bus device function reg_addr : Nat) : Nat :=
  1 <<< 31 ||| bus <<< 16 ||| device <<< 11 ||| function <<< 8 ||| (reg_addr &&& 0xfc)

/-! ## Concrete fixtures used by witnesses and counterexamples -/

/-- Port 3, the port used in the concrete bring-up runs below. -/
def port3 : Fin 256 := 3

/-- configure_port(3) on the fresh controller with port 3 connected. -/
def runS1 : XhcState := configurePort initState port3 true

/-- Then PortStatusChangeEvent for port 3 (enabled, reset-changed). -/
def runS2 : XhcState := onPortStatusChangeEvent runS1 port3 true true true

/-- Then CommandCompletionEvent for the EnableSlotCommand (allocation ok);
slot 1 is assigned to port 3. -/
def runS3 : XhcState := onCompletionEnableSlot runS2 true

/-- Then CommandCompletionEvent for the AddressDeviceCommand of slot 1,
whose device records root-hub port 3. -/
def runS4 : XhcState := onCompletionAddressDevice runS3 1 port3 true

/-- A fresh 4-slot producer ring at base address 64 with an empty doorbell log. -/
def ringFixture : RingM := { ring := Ring.initialize 64 4, doorbellWrites := [] }

/-- A fresh 32-slot transfer ring at base address 0, as allocated by
alloc_transfer_ring for the default control pipe. -/
def transferRingFixture : RingM := { ring := Ring.initialize 0 32, doorbellWrites := [] }

/-- A 2-slot event ring set up by usb/ring.rs EventRing::initialize on a
fresh EventRing over all-zero memory: the buffer is allocated at 64, the
segment-table entry is written at 128, and — as in the source — the struct's
buffer/segment_table pointers are left at null. -/
def eventRingFixture : EventRing := EventRing.initialize ( EventRing.new (fun _ => 0)) 64 128 2

/-! ## Generic bit-arithmetic lemmas -/

theorem getBits_lt (x lo hi : Nat) : getBits x lo hi < 2 ^ (hi - lo) :=
  Nat.mod_lt _ (by positivity)

theorem testBit_mul_pow_add (k c b i : Nat) (hb : b < 2 ^ k) :
    (2 ^ k * c + b).testBit i = if i < k then b.testBit i else c.testBit (i - k) := by
  rcases lt_or_ge i k with h | h
  · have hik : (2:Nat) ^ k = 2 ^ (k - i) * 2 ^ i := by
      rw [← pow_add]; congr 1; omega
    have e1 : 2 ^ k * c + b = b + 2 ^ (k - i) * c * 2 ^ i := by rw [hik]; ring
    have e2 : (b + 2 ^ (k - i) * c * 2 ^ i) / 2 ^ i = b / 2 ^ i + 2 ^ (k - i) * c :=
      Nat.add_mul_div_right _ _ (by positivity)
    have e3 : 2 ^ (k - i) * c = 2 ^ (k - i - 1) * c * 2 := by
      conv_lhs => rw [show k - i = k - i - 1 + 1 from by omega]
      rw [pow_succ]; ring
    simp only [if_pos h]
    rw [Nat.testBit_to_div_mod, Nat.testBit_to_div_mod, e1, e2, e3,
      Nat.add_mul_mod_self_right]
  · have hik : (2:Nat) ^ i = 2 ^ k * 2 ^ (i - k) := by
      rw [← pow_add]; congr 1; omega
    have e1 : (2 ^ k * c + b) / 2 ^ i = c / 2 ^ (i - k) := by
      rw [hik, ← Nat.div_div_eq_div_mul]
      congr 1
      rw [add_comm, Nat.add_mul_div_left _ _ (by positivity : (0:Nat) < 2 ^ k),
        Nat.div_eq_of_lt hb, Nat.zero_add]
    simp only [if_neg (Nat.not_lt.mpr h)]
    rw [Nat.testBit_to_div_mod, Nat.testBit_to_div_mod, e1]

theorem lor_mul_pow (k c b : Nat) (hb : b < 2 ^ k) :
    2 ^ k * c ||| b = 2 ^ k * c + b := by
  apply Nat.eq_of_testBit_eq
  intro i
  rw [Nat.testBit_lor]
  have h0 : (2 ^ k * c).testBit i = if i < k then false else c.testBit (i - k) := by
    have h := testBit_mul_pow_add k c 0 i (by positivity)
    simpa using h
  rw [h0, testBit_mul_pow_add k c b i hb]
  rcases lt_or_ge i k with h | h
  · simp [h]
  · have hbi : b.testBit i = false :=
      Nat.testBit_lt_two_pow (lt_of_lt_of_le hb (Nat.pow_le_pow_right (by norm_num) h))
    simp [Nat.not_lt.mpr h, hbi]

theorem land_clear_low (w k x : Nat) (hk : k ≤ w) (hx : x < 2 ^ w) :
    x &&& (2 ^ w - 2 ^ k) = 2 ^ k * (x / 2 ^ k) := by
  have hm : (2:Nat) ^ w - 2 ^ k = (2 ^ (w - k) - 1) <<< k := by
    rw [Nat.shiftLeft_eq, Nat.sub_mul, Nat.one_mul, ← pow_add]
    congr 2
    omega
  have hr : 2 ^ k * (x / 2 ^ k) = (x >>> k) <<< k := by
    rw [Nat.shiftLeft_eq, Nat.shiftRight_eq_div_pow, Nat.mul_comm]
  rw [hm, hr]
  apply Nat.eq_of_testBit_eq
  intro i
  rw [Nat.testBit_land, Nat.testBit_shiftLeft, Nat.testBit_shiftLeft,
    Nat.testBit_shiftRight, Nat.testBit_two_pow_sub_one]
  by_cases h1 : k ≤ i
  · by_cases h2 : i < w
    · have h3 : i - k < w - k := by omega
      have h4 : i - k + k = i := by omega
      simp [h1, h3, h4]
    · have hxi : x.testBit i = false :=
        Nat.testBit_lt_two_pow
          (lt_of_lt_of_le hx (Nat.pow_le_pow_right (by norm_num) (by omega)))
      have h3 : ¬(i - k < w - k) := by omega
      simp [h1, h3, hxi]
  · simp [h1]

/-! ## Bump-allocator lemmas (claims C7 and C10) -/

theorem ceil_pow_eq (v k : Nat) (hk : k ≤ 64) (hv : v + 2 ^ k ≤ 2 ^ 64) :
    ceil v (2 ^ k) = 2 ^ k * ((v + 2 ^ k - 1) / 2 ^ k) := by
  unfold ceil
  have h1 : v + 2 ^ k - 1 < 2 ^ 64 := by omega
  rw [Nat.mod_eq_of_lt h1]
  exact land_clear_low 64 k _ hk h1

theorem le_roundUp (v k : Nat) : v ≤ 2 ^ k * ((v + 2 ^ k - 1) / 2 ^ k) := by
  have h3 : (0:Nat) < 2 ^ k := by positivity
  have h := Nat.div_add_mod (v + 2 ^ k - 1) (2 ^ k)
  have h2 : (v + 2 ^ k - 1) % 2 ^ k < 2 ^ k := Nat.mod_lt _ h3
  generalize 2 ^ k * ((v + 2 ^ k - 1) / 2 ^ k) = P at h ⊢
  omega

theorem roundUp_lt (v k : Nat) : 2 ^ k * ((v + 2 ^ k - 1) / 2 ^ k) < v + 2 ^ k := by
  have h3 : (0:Nat) < 2 ^ k := by positivity
  have h := Nat.div_add_mod (v + 2 ^ k - 1) (2 ^ k)
  have h2 : (v + 2 ^ k - 1) % 2 ^ k < 2 ^ k := Nat.mod_lt _ h3
  generalize 2 ^ k * ((v + 2 ^ k - 1) / 2 ^ k) = P at h ⊢
  omega

theorem roundUp_le (v k c : Nat) (hvm : v ≤ 2 ^ k * c) :
    2 ^ k * ((v + 2 ^ k - 1) / 2 ^ k) ≤ 2 ^ k * c := by
  have h3 : (0:Nat) < 2 ^ k := by positivity
  have hq : (v + 2 ^ k - 1) / 2 ^ k ≤ c := by
    rw [Nat.div_le_iff_le_mul_add_pred h3]
    generalize 2 ^ k * c = m at hvm ⊢
    generalize 2 ^ k = A at *
    omega
  exact Nat.mul_le_mul_left _ hq

theorem mult_gap (A c1 c2 : Nat) (h : A * c1 < A * c2) : A * c1 + A ≤ A * c2 := by
  have hc : c1 < c2 := lt_of_mul_lt_mul_left h (Nat.zero_le A)
  calc A * c1 + A = A * (c1 + 1) := by ring
    _ ≤ A * c2 := Nat.mul_le_mul_left _ hc

/-- C7: for every successful allocate(bytes, alignment, Some(B)) with B = 2^k a
power of two and bytes ≤ B (and the alignment, if given, a power of two), the
returned region [p, p + bytes) crosses no multiple of B; and when the
(possibly alignment-rounded) offset plus bytes would exceed the next multiple
of B (its boundary rounding ceil), the returned pointer is exactly that next
multiple. -/
theorem allocate_boundary_spec
    (offset bytes k : Nat) (alignment : Option Nat) (p newOff : Nat)
    (hoff : offset ≤ MEMORY_POOL_BYTES)
    (hk : k ≤ 63)
    (hbytes : bytes ≤ 2 ^ k)
    (hal : alignment = none ∨ ∃ j, j ≤ 63 ∧ alignment = some (2 ^ j))
    (hsucc : allocate offset bytes alignment (some (2 ^ k)) = Except.ok (p, newOff)) :
    (∀ m, 2 ^ k ∣ m → ¬(p < m ∧ m < p + bytes)) ∧
    (alignedOffset offset alignment + bytes > ceil (alignedOffset offset alignment) (2 ^ k) →
      p = ceil (alignedOffset offset alignment) (2 ^ k)) := by
  have hkpow : (2:Nat) ^ k ≤ 2 ^ 63 := Nat.pow_le_pow_right (by norm_num) hk
  -- the alignment-rounded offset stays below 2^63
  have ho1 : alignedOffset offset alignment ≤ 2 ^ 63 := by
    rcases hal with hal | ⟨j, hj, hal⟩
    · rw [hal]
      simp only [alignedOffset]
      have : MEMORY_POOL_BYTES ≤ 2 ^ 63 := by unfold MEMORY_POOL_BYTES; norm_num
      omega
    · rw [hal]
      simp only [alignedOffset]
      have hjpow : (2:Nat) ^ j ≤ 2 ^ 63 := Nat.pow_le_pow_right (by norm_num) hj
      have hvj : offset + 2 ^ j ≤ 2 ^ 64 := by
        unfold MEMORY_POOL_BYTES at hoff
        have : (2:Nat) ^ 63 + 2 ^ 63 = 2 ^ 64 := by norm_num
        omega
      rw [ceil_pow_eq offset j (by omega) hvj]
      rcases le_or_lt (2 ^ j) MEMORY_POOL_BYTES with hsmall | hbig
      · have := roundUp_lt offset j
        unfold MEMORY_POOL_BYTES at hoff hsmall
        have : (131072:Nat) + 131072 ≤ 2 ^ 63 := by norm_num
        omega
      · have : offset ≤ 2 ^ j * 1 := by omega
        have := roundUp_le offset j 1 this
        omega
  set o1 := alignedOffset offset alignment with ho1def
  have hv1 : o1 + 2 ^ k ≤ 2 ^ 64 := by
    have : (2:Nat) ^ 63 + 2 ^ 63 = 2 ^ 64 := by norm_num
    omega
  have hceil := ceil_pow_eq o1 k (by omega) hv1
  -- extract p from the success hypothesis
  have hp : p = boundedOffset o1 bytes (some (2 ^ k)) := by
    simp only [allocate, ← ho1def] at hsucc
    split at hsucc
    · simp only [Except.ok.injEq, Prod.mk.injEq] at hsucc
      exact hsucc.1.symm
    · exact absurd hsucc (by simp)
  have hbd : boundedOffset o1 bytes (some (2 ^ k)) =
      if o1 + bytes > ceil o1 (2 ^ k) then ceil o1 (2 ^ k) else o1 := rfl
  constructor
  · intro m hm hcross
    obtain ⟨c, rfl⟩ := hm
    rw [hp, hbd] at hcross
    split at hcross
    · -- p = ceil o1 B; the next multiple after it is ≥ p + B ≥ p + bytes
      have hdvd : 2 ^ k ∣ ceil o1 (2 ^ k) := ⟨_, hceil⟩
      obtain ⟨q, hq⟩ := hdvd
      have hlt : 2 ^ k * q < 2 ^ k * c := by omega
      have := mult_gap (2 ^ k) q c hlt
      omega
    · -- p = o1 and o1 + bytes ≤ ceil o1 B ≤ m
      have hle : o1 ≤ 2 ^ k * c := by omega
      have := roundUp_le o1 k c hle
      rw [← hceil] at this
      omega
  · intro hjump
    rw [hp, hbd, if_pos hjump]

/-- C10: a failed allocate (OutOfMemory) leaves the global OFFSET unchanged —
the alignment and boundary rounding are committed only on success — and a
subsequent allocation behaves exactly as if the failed call had never
happened. -/
theorem allocate_failure_preserves_offset
    (offset bytes : Nat) (alignment boundary : Option Nat) (e : Unit)
    (hfail : (allocateRun offset bytes alignment boundary).1 = Except.error e) :
    (allocateRun offset bytes alignment boundary).2 = offset ∧
    ∀ bytes2 al2 bd2,
      allocateRun (allocateRun offset bytes alignment boundary).2 bytes2 al2 bd2 =
        allocateRun offset bytes2 al2 bd2 := by
  unfold allocateRun at hfail ⊢
  cases h : allocate offset bytes alignment boundary with
  | ok v =>
    obtain ⟨a, b⟩ := v
    rw [h] at hfail
    simp at hfail
  | error er =>
    exact ⟨rfl, fun _ _ _ => rfl⟩

/-- Witness for C7 at offset 1, bytes 64, boundary 64: the rounded offset 1
plus 64 exceeds the next multiple 64 of the boundary, so the returned pointer
is exactly that multiple. -/
theorem allocate_boundary_spec_witness :
    (64:Nat) = ceil (alignedOffset 1 none) (2 ^ 6) :=
  (allocate_boundary_spec 1 64 6 none 64 128 (by norm_num [MEMORY_POOL_BYTES])
    (by norm_num) (by norm_num) (Or.inl rfl) (by rfl)).2 (by decide)

/-- Witness for C10: asking for 131073 bytes from the fresh pool fails and
leaves OFFSET at 0. -/
theorem allocate_failure_preserves_offset_witness :
    (allocateRun 0 131073 none none).2 = 0 :=
  (allocate_failure_preserves_offset 0 131073 none none () (by rfl)).1

/-! ## pci.rs ConfigAddress (claim C9) -/

/-- C9 counterexample: ConfigAddress::new(1, 2, 3, 0xAB).value() is not
0x8000_1BA8 as the claim states (the stated format 1<<31 | bus<<16 | dev<<11
| fn<<8 | (reg & 0xFC) yields 0x8001_13A8 on these inputs). -/
theorem config_address_value_counterexample :
    ConfigAddress.value 1 2 3 0xAB ≠ 0x80001BA8 := by decide

/-- C9 amended: ConfigAddress::new(1, 2, 3, 0xAB).value() = 0x8001_13A8,
with bit 31 set and the low two bits of the register offset cleared. -/
theorem config_address_value_amended :
    ConfigAddress.value 1 2 3 0xAB = 0x800113A8 ∧
    (ConfigAddress.value 1 2 3 0xAB).testBit 31 = true ∧
    ConfigAddress.value 1 2 3 0xAB % 4 = 0 := by decide

/-! ## usb/port.rs msb1 and convert_interval (claim C8) -/

theorem revAux_eq (k : Nat) : ∀ m acc, revAux k m acc = acc * 2 ^ k + revSpec k m := by
  induction k with
  | zero => intro m acc; simp [revAux, revSpec]
  | succ k ih =>
    intro m acc
    rw [show revAux (k + 1) m acc = revAux k (m / 2) (2 * acc + m % 2) from rfl, ih,
      show revSpec (k + 1) m = m % 2 * 2 ^ k + revSpec k (m / 2) from rfl]
    ring

theorem revSpec_lt (k : Nat) : ∀ m, revSpec k m < 2 ^ k := by
  induction k with
  | zero => intro m; simp [revSpec]
  | succ k ih =>
    intro m
    have h1 := ih (m / 2)
    have h2 : (2:Nat) ^ (k + 1) = 2 ^ k + 2 ^ k := by rw [pow_succ]; ring
    rcases Nat.mod_two_eq_zero_or_one m with h | h <;>
      simp [revSpec, h] <;> omega

theorem revSpec_testBit (k : Nat) :
    ∀ m j, (revSpec k m).testBit j = if j < k then m.testBit (k - 1 - j) else false := by
  induction k with
  | zero => intro m j; simp [revSpec, Nat.zero_testBit]
  | succ k ih =>
    intro m j
    have hb : revSpec k (m / 2) < 2 ^ k := revSpec_lt k (m / 2)
    have he : revSpec (k + 1) m = 2 ^ k * (m % 2) + revSpec k (m / 2) := by
      rw [show revSpec (k + 1) m = m % 2 * 2 ^ k + revSpec k (m / 2) from rfl]; ring
    rw [he, testBit_mul_pow_add k (m % 2) _ j hb, ih]
    rcases lt_trichotomy j k with h | h | h
    · have e1 : k - 1 - j + 1 = k - j := by omega
      have e2 : k + 1 - 1 - j = k - j := by omega
      rw [if_pos h, if_pos h, if_pos (by omega : j < k + 1), e2, ← e1,
        Nat.testBit_succ]
    · subst h
      rw [if_neg (lt_irrefl j), if_pos (by omega : j < j + 1)]
      rw [show j - j = 0 from by omega, show j + 1 - 1 - j = 0 from by omega,
        Nat.testBit_zero, Nat.testBit_zero,
        show m % 2 % 2 = m % 2 from by omega]
    · rw [if_neg (by omega : ¬ j < k), if_neg (by omega : ¬ j < k + 1)]
      exact Nat.testBit_lt_two_pow
        (lt_of_lt_of_le (Nat.mod_lt m (by norm_num))
          (by
            calc (2:Nat) = 2 ^ 1 := by norm_num
              _ ≤ 2 ^ (j - k) := Nat.pow_le_pow_right (by norm_num) (by omega)))

theorem reverseBits32_testBit (n j : Nat) :
    (reverseBits32 n).testBit j = if j < 32 then n.testBit (31 - j) else false := by
  unfold reverseBits32
  rw [revAux_eq, Nat.zero_mul, Nat.zero_add, revSpec_testBit]

theorem msb1Aux_spec (k : Nat) : ∀ r i, k ≤ i → r.testBit k = true →
    (∀ j, j < k → r.testBit j = false) → msb1Aux r i = some (i - k) := by
  induction k with
  | zero =>
    intro r i _ hbit _
    have hr : r ≠ 0 := by
      intro h; rw [h, Nat.zero_testBit] at hbit; exact Bool.noConfusion hbit
    have hodd : r % 2 = 1 := by
      rw [Nat.testBit_zero] at hbit; exact of_decide_eq_true hbit
    rw [msb1Aux]
    simp [hr, hodd]
  | succ k ih =>
    intro r i hk hbit hlow
    have hr : r ≠ 0 := by
      intro h; rw [h, Nat.zero_testBit] at hbit; exact Bool.noConfusion hbit
    have heven : ¬ r % 2 = 1 := by
      have h0 := hlow 0 (by omega)
      rw [Nat.testBit_zero] at h0
      simpa using h0
    rw [msb1Aux]
    simp only [hr, heven, dif_neg, if_neg, ite_false, dite_false]
    rw [ih (r / 2) (i - 1) (by omega)
      (by rw [← Nat.testBit_succ]; exact hbit)
      (fun j hj => by rw [← Nat.testBit_succ]; exact hlow (j + 1) (by omega))]
    congr 1
    omega

theorem msb1_eq_log2 (n : Nat) (h0 : 0 < n) (h32 : n < 2 ^ 32) :
    msb1 n = some (Nat.log2 n) := by
  have hlog : Nat.log2 n ≤ 31 := by
    have := (Nat.log2_lt (by omega)).mpr h32
    omega
  unfold msb1
  have h1 : (reverseBits32 n).testBit (31 - Nat.log2 n) = true := by
    rw [reverseBits32_testBit, if_pos (by omega),
      show 31 - (31 - Nat.log2 n) = Nat.log2 n from by omega, Nat.testBit_to_div_mod]
    have hle : 2 ^ Nat.log2 n ≤ n := Nat.log2_self_le (by omega)
    have hlt : n < 2 ^ (Nat.log2 n + 1) := Nat.lt_log2_self
    have hdiv : n / 2 ^ Nat.log2 n = 1 := by
      apply Nat.div_eq_of_lt_le (by omega)
      rw [show (1 + 1) * 2 ^ Nat.log2 n = 2 ^ (Nat.log2 n + 1) from by rw [pow_succ]; ring]
      exact hlt
    simp [hdiv]
  have h2 : ∀ j, j < 31 - Nat.log2 n → (reverseBits32 n).testBit j = false := by
    intro j hj
    rw [reverseBits32_testBit, if_pos (by omega)]
    apply Nat.testBit_lt_two_pow
    calc n < 2 ^ (Nat.log2 n + 1) := Nat.lt_log2_self
      _ ≤ 2 ^ (31 - j) := Nat.pow_le_pow_right (by norm_num) (by omega)
  rw [msb1Aux_spec (31 - Nat.log2 n) (reverseBits32 n) 0x1f (by omega) h1 h2]
  congr 1
  omega

/-- C8: convert_interval follows the spec table (u32 arithmetic): Full/Low +
Isochronous gives interval * 2, Full/Low + any other type gives msb1(interval)
+ 3 — i.e. 2 for interval 0 and log2(interval) + 3 otherwise — and
High/Super/SuperSpeedPlus give interval - 1 (wrapping at interval 0). -/
theorem convert_interval_spec (s : PortSpeed) (t : EndpointType) (i : Nat) (hi : i < 2 ^ 32) :
    ((s = PortSpeed.FullSpeed ∨ s = PortSpeed.LowSpeed) → t = EndpointType.Isochronous →
      convert_interval s t i = i * 2 % 2 ^ 32) ∧
    ((s = PortSpeed.FullSpeed ∨ s = PortSpeed.LowSpeed) → t = EndpointType.Isochronous →
      i * 2 < 2 ^ 32 → convert_interval s t i = i * 2) ∧
    ((s = PortSpeed.FullSpeed ∨ s = PortSpeed.LowSpeed) → t ≠ EndpointType.Isochronous →
      convert_interval s t i = if i = 0 then 2 else Nat.log2 i + 3) ∧
    ((s = PortSpeed.HighSpeed ∨ s = PortSpeed.SuperSpeed ∨ s = PortSpeed.SuperSpeedPlus) →
      convert_interval s t i = (i + (2 ^ 32 - 1)) % 2 ^ 32) ∧
    ((s = PortSpeed.HighSpeed ∨ s = PortSpeed.SuperSpeed ∨ s = PortSpeed.SuperSpeedPlus) →
      0 < i → convert_interval s t i = i - 1) := by
  have hiso : ∀ hs : s = PortSpeed.FullSpeed ∨ s = PortSpeed.LowSpeed,
      t = EndpointType.Isochronous → convert_interval s t i = i * 2 % 2 ^ 32 := by
    rintro (rfl | rfl) rfl <;> rfl
  have hhigh : ∀ _ : s = PortSpeed.HighSpeed ∨ s = PortSpeed.SuperSpeed ∨
      s = PortSpeed.SuperSpeedPlus, convert_interval s t i = (i + (2 ^ 32 - 1)) % 2 ^ 32 := by
    rintro (rfl | rfl | rfl) <;> rfl
  refine ⟨hiso, ?_, ?_, hhigh, ?_⟩
  · intro hs ht hlt
    rw [hiso hs ht]
    exact Nat.mod_eq_of_lt hlt
  · intro hs ht
    have hbranch : convert_interval s t i =
        ((match msb1 i with
          | some x => (x : Int)
          | none => -1) + 3).toNat % 2 ^ 32 := by
      rcases hs with rfl | rfl <;> cases t <;> first | rfl | exact absurd rfl ht
    rw [hbranch]
    by_cases h0 : i = 0
    · subst h0
      rw [show msb1 0 = none from by rw [msb1, show reverseBits32 0 = 0 from rfl, msb1Aux]; simp]
      decide
    · rw [msb1_eq_log2 i (by omega) hi, if_neg h0]
      have hlog : Nat.log2 i ≤ 31 := by
        have := (Nat.log2_lt h0).mpr hi
        omega
      show ((Nat.log2 i : Int) + 3).toNat % 2 ^ 32 = Nat.log2 i + 3
      rw [show ((Nat.log2 i : Int) + 3).toNat = Nat.log2 i + 3 from by omega]
      exact Nat.mod_eq_of_lt (by omega)
  · intro hs h0
    rw [hhigh hs]
    have h32 : (2:Nat) ^ 32 = 4294967296 := by norm_num
    rw [h32] at hi ⊢
    omega

/-- Witness for C8: a Full-speed Interrupt endpoint with interval 8 converts
to msb1(8) + 3 = 6. -/
theorem convert_interval_spec_witness :
    convert_interval PortSpeed.FullSpeed EndpointType.Interrupt 8 = 6 :=
  (((convert_interval_spec PortSpeed.FullSpeed EndpointType.Interrupt 8
    (by norm_num)).2.2.1 (Or.inl rfl) (by decide))).trans (by norm_num [Nat.log2])

/-! ## usb/ring.rs EventRing (claims C3 and C4)

usb/ring.rs EventRing::initialize never assigns self.buffer or
self.segment_table (both stay null from new()), while pop reads the segment
bounds through self.segment_table; the sibling revision usb/trb/ring.rs does
assign both fields.  The lemmas below first show that the assigned revision
satisfies the claimed wrap behaviour, then exhibit the divergence of the
usb/ring.rs revision. -/

theorem segTableEntry_fields (base len : Nat) (hb : base < 2 ^ 64) (hl : len < 2 ^ 16) :
    getBits (segTableEntry base len) 0 64 = base ∧
    getBits (segTableEntry base len) 64 80 = len := by
  simp only [segTableEntry, setBits, getBits]
  norm_num
  omega

theorem trb_event_ring_pop_iter (mem : Nat → Nat) (bufAddr tblAddr N : Nat)
    (hb : bufAddr < 2 ^ 64) (h16 : N < 2 ^ 16) :
    ∀ k, k < N →
      (EventRing.pop^[k]
        (TrbMod.initializeEventRing ( EventRing.new mem) bufAddr tblAddr N)).erdp =
        bufAddr + 16 * k ∧
      (EventRing.pop^[k]
        (TrbMod.initializeEventRing ( EventRing.new mem) bufAddr tblAddr N)).cycle_bit = true ∧
      (EventRing.pop^[k]
        (TrbMod.initializeEventRing ( EventRing.new mem) bufAddr tblAddr N)).mem =
        Function.update mem tblAddr (segTableEntry bufAddr N) ∧
      (EventRing.pop^[k]
        (TrbMod.initializeEventRing ( EventRing.new mem) bufAddr tblAddr N)).segment_table =
        tblAddr := by
  intro k
  induction k with
  | zero =>
    intro _
    simp [TrbMod.initializeEventRing, EventRing.new]
  | succ k ih =>
    intro hk
    obtain ⟨h1, h2, h3, h4⟩ := ih (by omega)
    obtain ⟨hbase, hsize⟩ := segTableEntry_fields bufAddr N hb h16
    rw [Function.iterate_succ_apply']
    have hread : (EventRing.pop^[k]
        (TrbMod.initializeEventRing ( EventRing.new mem) bufAddr tblAddr N)).mem
        ((EventRing.pop^[k]
          (TrbMod.initializeEventRing ( EventRing.new mem) bufAddr tblAddr N)).segment_table) =
        segTableEntry bufAddr N := by
      rw [h4, h3, Function.update_same]
    have hc : ¬ ((EventRing.pop^[k]
        (TrbMod.initializeEventRing ( EventRing.new mem) bufAddr tblAddr N)).erdp + 16 =
        getBits ((EventRing.pop^[k]
          (TrbMod.initializeEventRing ( EventRing.new mem) bufAddr tblAddr N)).mem
          ((EventRing.pop^[k]
            (TrbMod.initializeEventRing ( EventRing.new mem) bufAddr tblAddr N)).segment_table))
          0 64 +
        16 * getBits ((EventRing.pop^[k]
          (TrbMod.initializeEventRing ( EventRing.new mem) bufAddr tblAddr N)).mem
          ((EventRing.pop^[k]
            (TrbMod.initializeEventRing ( EventRing.new mem) bufAddr tblAddr N)).segment_table))
          64 80) := by
      rw [hread, hbase, hsize, h1]
      omega
    simp only [EventRing.pop, if_neg hc]
    refine ⟨by rw [h1]; omega, h2, h3, h4⟩

/-- The claimed wrap behaviour holds for the usb/trb/ring.rs revision, whose
initialize does assign self.buffer and self.segment_table: every pop before
the Nth advances ERDP by one 16-byte TRB with the cycle bit unchanged, and
the Nth pop returns ERDP to the segment base and complements the cycle bit. -/
theorem trb_event_ring_wrap (mem : Nat → Nat) (bufAddr tblAddr N : Nat)
    (hb : bufAddr < 2 ^ 64) (h0 : 0 < N) (h16 : N < 2 ^ 16) :
    (∀ k, k + 1 < N →
      (EventRing.pop^[k + 1]
        (TrbMod.initializeEventRing ( EventRing.new mem) bufAddr tblAddr N)).erdp =
        (EventRing.pop^[k]
          (TrbMod.initializeEventRing ( EventRing.new mem) bufAddr tblAddr N)).erdp + 16 ∧
      (EventRing.pop^[k + 1]
        (TrbMod.initializeEventRing ( EventRing.new mem) bufAddr tblAddr N)).cycle_bit =
        (EventRing.pop^[k]
          (TrbMod.initializeEventRing ( EventRing.new mem) bufAddr tblAddr N)).cycle_bit) ∧
    (TrbMod.initializeEventRing ( EventRing.new mem) bufAddr tblAddr N).cycle_bit = true ∧
    (EventRing.pop^[N]
      (TrbMod.initializeEventRing ( EventRing.new mem) bufAddr tblAddr N)).erdp = bufAddr ∧
    (EventRing.pop^[N]
      (TrbMod.initializeEventRing ( EventRing.new mem) bufAddr tblAddr N)).cycle_bit =
      false := by
  refine ⟨?_, rfl, ?_⟩
  · intro k hk
    obtain ⟨h1, h2, _, _⟩ := trb_event_ring_pop_iter mem bufAddr tblAddr N hb h16 k (by omega)
    obtain ⟨g1, g2, _, _⟩ :=
      trb_event_ring_pop_iter mem bufAddr tblAddr N hb h16 (k + 1) (by omega)
    rw [h1, h2, g1, g2]
    exact ⟨by omega, rfl⟩
  · obtain ⟨h1, h2, h3, h4⟩ :=
      trb_event_ring_pop_iter mem bufAddr tblAddr N hb h16 (N - 1) (by omega)
    obtain ⟨hbase, hsize⟩ := segTableEntry_fields bufAddr N hb h16
    have key : EventRing.pop^[N]
        (TrbMod.initializeEventRing ( EventRing.new mem) bufAddr tblAddr N) =
        EventRing.pop (EventRing.pop^[N - 1]
          (TrbMod.initializeEventRing ( EventRing.new mem) bufAddr tblAddr N)) := by
      have h := Function.iterate_succ_apply' EventRing.pop (N - 1)
        (TrbMod.initializeEventRing ( EventRing.new mem) bufAddr tblAddr N)
      rw [show (N - 1).succ = N from by omega] at h
      exact h
    rw [key]
    have hread : (EventRing.pop^[N - 1]
        (TrbMod.initializeEventRing ( EventRing.new mem) bufAddr tblAddr N)).mem
        ((EventRing.pop^[N - 1]
          (TrbMod.initializeEventRing ( EventRing.new mem) bufAddr tblAddr N)).segment_table) =
        segTableEntry bufAddr N := by
      rw [h4, h3, Function.update_same]
    have hc : (EventRing.pop^[N - 1]
        (TrbMod.initializeEventRing ( EventRing.new mem) bufAddr tblAddr N)).erdp + 16 =
        getBits ((EventRing.pop^[N - 1]
          (TrbMod.initializeEventRing ( EventRing.new mem) bufAddr tblAddr N)).mem
          ((EventRing.pop^[N - 1]
            (TrbMod.initializeEventRing ( EventRing.new mem) bufAddr tblAddr N)).segment_table))
          0 64 +
        16 * getBits ((EventRing.pop^[N - 1]
          (TrbMod.initializeEventRing ( EventRing.new mem) bufAddr tblAddr N)).mem
          ((EventRing.pop^[N - 1]
            (TrbMod.initializeEventRing ( EventRing.new mem) bufAddr tblAddr N)).segment_table))
          64 80 := by
      rw [hread, hbase, hsize, h1]
      omega
    simp only [EventRing.pop, if_pos hc]
    rw [hread, hbase, h2]
    exact ⟨rfl, rfl⟩

/-- C4: the claim fails on the usb/ring.rs revision.  EventRing::initialize
writes a correct segment-table entry (base 64, size 2 here) through its
local segment_table_ptr, but never assigns self.segment_table or self.buffer
— both keep the null from new() — and pop reads the segment bounds through
self.segment_table.  With the 16 bytes at the null address zero, the wrap
condition ERDP + 16 = 0 + 16 * 0 never holds, so after N = 2 pops ERDP is 96
instead of the claimed segment base 64 and the tracked cycle bit is still
true instead of the claimed complement. -/
theorem event_ring_pop_misses_written_segment_table :
    eventRingFixture.segment_table = 0 ∧
    eventRingFixture.buffer = 0 ∧
    getBits (eventRingFixture.mem 128) 0 64 = 64 ∧
    getBits (eventRingFixture.mem 128) 64 80 = 2 ∧
    eventRingFixture.cycle_bit = true ∧
    (EventRing.pop^[2] eventRingFixture).erdp = 96 ∧
    (EventRing.pop^[2] eventRingFixture).cycle_bit = true := by decide

/-- C3: the claim places the TRB cycle bit at bit 96, but usb/ring.rs
Trb::cycle_bit reads bit 65, and EventRing::peek_front therefore compares
bit 65 — not bit 96 — against the tracked cycle bit: a TRB with bit 96 set
and bit 65 clear is not returned even though the tracked cycle bit matches
bit 96.  The same file's producer (copyCycle, used by Ring::push) places the
cycle bit at bit 96, confirming bit 96 is the intended position. -/
theorem trb_cycle_bit_is_bit65 :
    Trb.cycle_bit (2 ^ 96) = false ∧
    Trb.cycle_bit (2 ^ 65) = true ∧
    EventRing.peek_front
      { mem := fun _ => 2 ^ 96, buffer := 0, segment_table := 0, erdp := 0,
        len := 2, cycle_bit := true } = none ∧
    (copyCycle 0 true).testBit 96 = true ∧
    (copyCycle 0 true).testBit 65 = false := by decide

/-- C2: the claim (and the spec's MUST) requires transfer_type 2 for a
control-OUT with a data buffer, but usb/ring.rs defines
TRANSFER_TYPE_OUT_DATA_STAGE = 3 (colliding with IN), so control_out pushes a
SetupStage TRB whose bits 112..114 are 3; control-IN correctly uses 3. -/
theorem control_out_setup_transfer_type :
    TRANSFER_TYPE_OUT_DATA_STAGE = 3 ∧
    TRANSFER_TYPE_OUT_DATA_STAGE ≠ 2 ∧
    TrbMod.TRANSFER_TYPE_OUT_DATA_STAGE = 2 ∧
    getBits ((control_out transferRingFixture 1 0 (some (0, 8))).ring.slots 0) 112 114 = 3 ∧
    getBits ((control_in transferRingFixture 1 0 (some (0, 8))).ring.slots 0) 112 114 = 3 := by
  refine ⟨rfl, by decide, rfl, ?_, ?_⟩ <;> decide

/-! ## usb/ring.rs Ring::push (claim C6) -/

theorem copyCycle_eq (d : Nat) (c : Bool) :
    copyCycle d c = d % 2 ^ 96 +
      (2 * (d / 2 ^ 96 % 2 ^ 32 / 2) + (if c then 1 else 0)) * 2 ^ 96 +
      d / 2 ^ 128 * 2 ^ 128 := by
  simp only [copyCycle, getBits, setBits, show (128:Nat) - 96 = 32 from rfl]
  have hm : d / 2 ^ 96 % 2 ^ 32 < 2 ^ 32 := Nat.mod_lt _ (by positivity)
  have hland : d / 2 ^ 96 % 2 ^ 32 &&& 0xfffffffe = 2 * (d / 2 ^ 96 % 2 ^ 32 / 2) := by
    have h := land_clear_low 32 1 (d / 2 ^ 96 % 2 ^ 32) (by norm_num) hm
    rw [pow_one] at h
    rw [show (2:Nat) ^ 32 - 2 = 0xfffffffe from by norm_num] at h
    exact h
  have hlor : 2 * (d / 2 ^ 96 % 2 ^ 32 / 2) ||| (if c then 1 else 0) =
      2 * (d / 2 ^ 96 % 2 ^ 32 / 2) + (if c then 1 else 0) := by
    have h := lor_mul_pow 1 (d / 2 ^ 96 % 2 ^ 32 / 2) (if c then 1 else 0)
      (by cases c <;> norm_num)
    rw [pow_one] at h
    exact h
  rw [hland, hlor]
  have hv : 2 * (d / 2 ^ 96 % 2 ^ 32 / 2) + (if c then 1 else 0) < 2 ^ 32 := by
    have hc : (if c then (1:Nat) else 0) ≤ 1 := by cases c <;> norm_num
    omega
  rw [Nat.mod_eq_of_lt hv]

theorem copyCycle_testBit96 (d : Nat) (c : Bool) : (copyCycle d c).testBit 96 = c := by
  rw [copyCycle_eq, Nat.testBit_to_div_mod]
  cases c
  · rw [decide_eq_false_iff_not]
    norm_num
    omega
  · rw [decide_eq_true_eq]
    norm_num
    omega

theorem copyCycle_mod96 (d : Nat) (c : Bool) : copyCycle d c % 2 ^ 96 = d % 2 ^ 96 := by
  rw [copyCycle_eq]
  norm_num
  omega

theorem copyCycle_div97 (d : Nat) (c : Bool) : copyCycle d c / 2 ^ 97 = d / 2 ^ 97 := by
  rw [copyCycle_eq]
  cases c <;> norm_num <;> omega

theorem linkTrbValue (base : Nat) (hb : base < 2 ^ 64) :
    LinkTrb.set_toggle_cycle (LinkTrb.new base) true =
      16 * (base / 16) + 2 ^ 97 + 6 * 2 ^ 106 := by
  unfold LinkTrb.new LinkTrb.set_toggle_cycle setBitB setBits
  norm_num
  omega

theorem linkSlot_trbType (base : Nat) (c : Bool) (hb : base < 2 ^ 64) :
    trbType (copyCycle (LinkTrb.set_toggle_cycle (LinkTrb.new base) true) c) = 6 := by
  rw [copyCycle_eq, linkTrbValue base hb]
  unfold trbType getBits
  cases c <;> norm_num <;> omega

theorem linkSlot_pointer (base : Nat) (c : Bool) (hb : base < 2 ^ 64)
    (h16 : base % 16 = 0) :
    getBits (copyCycle (LinkTrb.set_toggle_cycle (LinkTrb.new base) true) c) 4 64 * 16 =
      base := by
  rw [copyCycle_eq, linkTrbValue base hb]
  unfold getBits
  cases c <;> norm_num <;> omega

theorem linkSlot_toggle (base : Nat) (c : Bool) (hb : base < 2 ^ 64) :
    (copyCycle (LinkTrb.set_toggle_cycle (LinkTrb.new base) true) c).testBit 97 = true := by
  rw [copyCycle_eq, linkTrbValue base hb, Nat.testBit_to_div_mod, decide_eq_true_eq]
  cases c <;> norm_num <;> omega

/-- C6: every Ring::push writes the given TRB at slot write_index with bit 96
(the cycle bit) forced to the ring's cycle_bit and all other bits preserved,
returning that slot's address; the push that makes write_index reach N-1
additionally writes slot N-1 with a Link TRB (type 6) whose pointer is the
ring base, toggle_cycle (bit 97) set, carrying the pre-flip cycle bit, then
resets write_index to 0 and inverts cycle_bit; push performs no doorbell
write. -/
theorem ring_push_spec (m : RingM) (data : Nat)
    (hlen : 2 ≤ m.ring.len) (hwi : m.ring.write_index < m.ring.len - 1)
    (hbase : m.ring.base < 2 ^ 64) (halign : m.ring.base % 16 = 0) :
    ((m.push data).1.ring.slots m.ring.write_index).testBit 96 = m.ring.cycle_bit ∧
    (m.push data).1.ring.slots m.ring.write_index % 2 ^ 96 = data % 2 ^ 96 ∧
    (m.push data).1.ring.slots m.ring.write_index / 2 ^ 97 = data / 2 ^ 97 ∧
    (m.push data).2 = m.ring.base + 16 * m.ring.write_index ∧
    (m.push data).1.doorbellWrites = m.doorbellWrites ∧
    (m.ring.write_index + 1 < m.ring.len - 1 →
      (m.push data).1.ring.write_index = m.ring.write_index + 1 ∧
      (m.push data).1.ring.cycle_bit = m.ring.cycle_bit ∧
      ∀ i, i ≠ m.ring.write_index → (m.push data).1.ring.slots i = m.ring.slots i) ∧
    (m.ring.write_index + 1 = m.ring.len - 1 →
      trbType ((m.push data).1.ring.slots (m.ring.len - 1)) = 6 ∧
      getBits ((m.push data).1.ring.slots (m.ring.len - 1)) 4 64 * 16 = m.ring.base ∧
      ((m.push data).1.ring.slots (m.ring.len - 1)).testBit 97 = true ∧
      ((m.push data).1.ring.slots (m.ring.len - 1)).testBit 96 = m.ring.cycle_bit ∧
      (m.push data).1.ring.write_index = 0 ∧
      (m.push data).1.ring.cycle_bit = !m.ring.cycle_bit ∧
      ∀ i, i ≠ m.ring.write_index → i ≠ m.ring.len - 1 →
        (m.push data).1.ring.slots i = m.ring.slots i) := by
  obtain ⟨⟨base, slots, len, cyc, wi⟩, db⟩ := m
  simp only at hlen hwi hbase halign
  by_cases hcase : wi + 1 = len - 1
  · have hne : wi ≠ wi + 1 := by omega
    simp only [RingM.push, Ring.push, Ring.copy_to_last, if_pos hcase]
    rw [← hcase]
    refine ⟨?_, ?_, ?_, ?_, ?_, ?_, ?_⟩
    · rw [Function.update_noteq hne, Function.update_same]
      exact copyCycle_testBit96 data cyc
    · rw [Function.update_noteq hne, Function.update_same]
      exact copyCycle_mod96 data cyc
    · rw [Function.update_noteq hne, Function.update_same]
      exact copyCycle_div97 data cyc
    · first | rfl | trivial
    · first | rfl | trivial
    · intro hlt
      omega
    · intro _
      refine ⟨?_, ?_, ?_, ?_, ?_, ?_, ?_⟩
      · rw [Function.update_same]
        exact linkSlot_trbType base cyc hbase
      · rw [Function.update_same]
        exact linkSlot_pointer base cyc hbase halign
      · rw [Function.update_same]
        exact linkSlot_toggle base cyc hbase
      · rw [Function.update_same]
        exact copyCycle_testBit96 _ cyc
      · first | rfl | trivial
      · first | rfl | trivial
      · intro i hi1 hi2
        rw [Function.update_noteq (by omega : i ≠ wi + 1), Function.update_noteq hi1]
  · simp only [RingM.push, Ring.push, Ring.copy_to_last, if_neg hcase]
    refine ⟨?_, ?_, ?_, ?_, ?_, ?_, ?_⟩
    · rw [Function.update_same]
      exact copyCycle_testBit96 data cyc
    · rw [Function.update_same]
      exact copyCycle_mod96 data cyc
    · rw [Function.update_same]
      exact copyCycle_div97 data cyc
    · first | rfl | trivial
    · first | rfl | trivial
    · intro _
      refine ⟨?_, ?_, fun i hi => Function.update_noteq hi _ _⟩ <;> first | rfl | trivial
    · intro heq
      exact absurd heq hcase

/-- Witness for C6 on a fresh 4-slot ring at base 64: the push leaves the
doorbell log untouched and returns the base slot address. -/
theorem ring_push_spec_witness :
    (ringFixture.push 7).1.doorbellWrites = ringFixture.doorbellWrites ∧
    (ringFixture.push 7).2 = 64 :=
  ⟨(ring_push_spec ringFixture 7 (by decide) (by decide) (by decide) (by decide)).2.2.2.2.1,
   (ring_push_spec ringFixture 7 (by decide) (by decide) (by decide) (by decide)).2.2.2.1⟩

/-! ## usb/mod.rs port bring-up state machine (claims C5 and C1) -/

/-- The single-addressing invariant: every port in an active phase is the
addressing port. -/
def Inv (s : XhcState) : Prop :=
  ∀ p, ActivePhase (s.phases p) → s.addressing_port = some p

theorem not_active_waiting : ¬ ActivePhase ConfigPhase.WaitingAddressed := by
  simp [ActivePhase]

theorem inv_resetPort (s : XhcState) (p : Fin 256) (conn : Bool) (h : Inv s) :
    Inv (resetPort s p conn) := by
  unfold resetPort
  split
  · split
    · -- addressing_port = some _: the port is parked as WaitingAddressed
      intro q hq
      simp only at hq
      by_cases hqp : q = p
      · subst hqp
        rw [Function.update_same] at hq
        exact absurd hq not_active_waiting
      · rw [Function.update_noteq hqp] at hq
        exact h q hq
    · -- addressing_port = none
      rename_i hnone
      split
      · intro q hq
        simp only at hq ⊢
        by_cases hqp : q = p
        · subst hqp; rfl
        · rw [Function.update_noteq hqp] at hq
          exact absurd (h q hq) (by rw [hnone]; simp)
      · intro q hq
        simp only at hq ⊢
        by_cases hqp : q = p
        · subst hqp; rfl
        · rw [Function.update_noteq hqp] at hq
          exact absurd (h q hq) (by rw [hnone]; simp)
      · exact h
  · exact h

theorem inv_enableSlot (s : XhcState) (p : Fin 256) (en rc : Bool) (h : Inv s)
    (hp : ActivePhase (s.phases p)) : Inv (enableSlot s p en rc) := by
  unfold enableSlot
  split
  · intro q hq
    simp only at hq ⊢
    by_cases hqp : q = p
    · subst hqp; exact h q hp
    · rw [Function.update_noteq hqp] at hq
      exact h q hq
  · exact h

theorem scan_preserves (s : XhcState) (conn : Bool) (a : Fin 256)
    (ha : s.addressing_port = some a) :
    (scanWaitingAddressed s conn).addressing_port = some a ∧
    ∀ q, ActivePhase ((scanWaitingAddressed s conn).phases q) →
      ActivePhase (s.phases q) := by
  unfold scanWaitingAddressed
  split
  · rename_i i hi
    unfold resetPort
    rw [ha]
    split
    · dsimp only
      refine ⟨rfl, fun q hq => ?_⟩
      by_cases hqi : q = i
      · subst hqi
        rw [Function.update_same] at hq
        exact absurd hq not_active_waiting
      · rw [Function.update_noteq hqi] at hq
        exact hq
    · exact ⟨ha, fun q hq => hq⟩
  · exact ⟨ha, fun q hq => hq⟩

theorem inv_step (s s2 : XhcState) (h : XhcStep s s2) (hinv : Inv s) : Inv s2 := by
  cases h with
  | configurePort p conn =>
    unfold configurePort
    split
    · exact inv_resetPort s p conn hinv
    · exact hinv
  | portStatusChange p conn en rc =>
    unfold onPortStatusChangeEvent
    split
    · exact inv_resetPort s p conn hinv
    · rename_i hp
      exact inv_enableSlot s p en rc hinv (by rw [hp]; simp [ActivePhase])
    · exact hinv
  | completionEnableSlot allocOk =>
    unfold onCompletionEnableSlot
    split
    · rename_i ap hap
      split
      · unfold addressDevice
        split
        · intro q hq
          simp only at hq ⊢
          by_cases hqa : q = ap
          · subst hqa; exact hap
          · rw [Function.update_noteq hqa] at hq
            have := hinv q hq
            rw [hap] at this
            exact absurd (Option.some.inj this).symm hqa
        · exact hinv
      · exact hinv
    · exact hinv
  | completionAddressDevice slot devPort conn =>
    unfold onCompletionAddressDevice
    split
    · rename_i hcond
      obtain ⟨haddr, hphase⟩ := hcond
      obtain ⟨hscan_addr, hscan_act⟩ := scan_preserves s conn devPort haddr
      intro q hq
      simp only at hq ⊢
      by_cases hqd : q = devPort
      · subst hqd
        rw [Function.update_same] at hq
        exact absurd hq (by simp [ActivePhase])
      · rw [Function.update_noteq hqd] at hq
        have := hinv q (hscan_act q hq)
        rw [haddr] at this
        exact absurd (Option.some.inj this).symm hqd
    · exact hinv
  | completionConfigureEndpoint devPort =>
    unfold onCompletionConfigureEndpoint
    split
    · intro q hq
      simp only at hq ⊢
      by_cases hqd : q = devPort
      · subst hqd
        rw [Function.update_same] at hq
        exact absurd hq (by simp [ActivePhase])
      · rw [Function.update_noteq hqd] at hq
        exact hinv q hq
    · exact hinv
  | transferEvent devPort ini ok =>
    unfold onTransferEvent
    split
    · split
      · intro q hq
        simp only at hq ⊢
        by_cases hqd : q = devPort
        · subst hqd
          rw [Function.update_same] at hq
          exact absurd hq (by simp [ActivePhase])
        · rw [Function.update_noteq hqd] at hq
          exact hinv q hq
      · exact hinv
    · exact hinv

theorem inv_reachable (s : XhcState) (h : XhcReachable s) : Inv s := by
  unfold XhcReachable at h
  induction h with
  | refl =>
    intro p hp
    exact absurd hp (by simp [initState, ActivePhase])
  | tail _ hstep ih =>
    exact inv_step _ _ hstep ih

/-- C5: in every controller state reachable from the initial state by
configure_port calls and event-handler steps, every port whose phase is in
{ResettingPort, EnablingSlot, AddressingDevice} equals addressing_port; in
particular at most one port is in one of those three phases. -/
theorem single_addressing_invariant (s : XhcState) (h : XhcReachable s) :
    (∀ p, ActivePhase (s.phases p) → s.addressing_port = some p) ∧
    (∀ p q, ActivePhase (s.phases p) → ActivePhase (s.phases q) → p = q) := by
  have hinv := inv_reachable s h
  refine ⟨hinv, fun p q hp hq => ?_⟩
  have h1 := hinv p hp
  have h2 := hinv q hq
  rw [h1] at h2
  exact Option.some.inj h2

/-- Witness for C5: after configure_port(3) on the fresh controller with
port 3 connected, port 3 is in ResettingPort and is the addressing port. -/
theorem single_addressing_invariant_witness :
    runS1.addressing_port = some port3 :=
  (single_addressing_invariant runS1
    (Relation.ReflTransGen.single (XhcStep.configurePort initState port3 true))).1
    port3 (by decide)

set_option maxRecDepth 8000 in
/-- C1: the AddressDeviceCommand completion handler (reached here through the
concrete bring-up run init → configure_port(3) → PortStatusChangeEvent(3) →
EnableSlotCommand completion for slot 1 → AddressDeviceCommand completion
for slot 1 whose device records port 3) does set port_config_phase[3] =
InitializingDevice and calls start_initialize on slot 1, but it never clears
addressing_port: the source has no addressing_port = None assignment, so it
remains Some(3) — contradicting the claimed postcondition addressing_port =
None (which the WaitingAddressed re-dispatch relies on). -/
theorem address_device_completion_keeps_addressing_port :
    XhcReachable runS4 ∧
    runS3.addressing_port = some port3 ∧
    runS3.phases port3 = ConfigPhase.AddressingDevice ∧
    runS4.phases port3 = ConfigPhase.InitializingDevice ∧
    runS4.startedSlots = [1] ∧
    runS4.addressing_port = some port3 ∧
    runS4.addressing_port ≠ none := by
  have h1 : XhcStep initState runS1 := XhcStep.configurePort initState port3 true
  have h2 : XhcStep runS1 runS2 := XhcStep.portStatusChange runS1 port3 true true true
  have h3 : XhcStep runS2 runS3 := XhcStep.completionEnableSlot runS2 true
  have h4 : XhcStep runS3 runS4 := XhcStep.completionAddressDevice runS3 1 port3 true
  refine ⟨Relation.ReflTransGen.tail (Relation.ReflTransGen.tail
    (Relation.ReflTransGen.tail (Relation.ReflTransGen.single h1) h2) h3) h4,
    ?_, ?_, ?_, ?_, ?_, ?_⟩ <;> decide

end Rumikan
